import Mathlib

/-!
Verification of the tile arrangement and algebraic validation engine of
`script.js`: the algebra-tile model (Tile, scale configuration), the
arrangement validator (`validateArrangement`), the grid-dimension
inference (`getGridDimensions`), the snap resolver (`snapToNeighbors`),
the factoring solver (`solveAndAnimate`, `getClosestFactors`) and the
animation stepper (the `render` loop).

Conventions of the embedding:
* Pixel coordinates and sizes are rationals (`ℚ`); the source works with
  JS doubles but every constant involved is a small integer or an exact
  tenth/half, so exact rational arithmetic is the faithful idealisation.
* Coefficients are integers (`ℤ`).  A text field whose content does not
  parse to an integer (`parseInt` returns `NaN`) is modelled as `none`.
* JS `%` on integers is truncated remainder and `/` is exact in every
  place the source uses them (both are guarded by a divisibility test),
  so Lean's `Int.emod`/`Int.div` coincide with the source there.
* Methods that mutate `this.tiles` are embedded as functions from the
  tile list to the new tile list.
-/

/-- Tile kind: `x2` is the x² square, `x` the bar, `one` the unit square. -/
inductive TileType where
  | x2
  | x
  | one
deriving DecidableEq, Repr

/-- The two global scale parameters `TILE_CONFIG.SIZES.x` and
`TILE_CONFIG.SIZES.u` (desktop: 200/25, mobile: 100/20). -/
structure Config where
  x : ℚ
  u : ℚ
deriving DecidableEq, Repr

/-- Desktop sizing from `updateTileConfig`. -/
def desktopConfig : Config := ⟨200, 25⟩

/-- Mobile sizing from `updateTileConfig` (viewport width ≤ 768). -/
def mobileConfig : Config := ⟨100, 20⟩

/-- A tile, mirroring the fields of the `Tile` class that the engine
reads: kind, position, sign, rotation (0 or 1 as in the source), the
copied scale parameters `uSize`/`xSize`, derived size `w`/`h`, and the
target position set by the auto-layout planner (absent until assigned,
like the initially-undefined `targetX`/`targetY`). -/
structure Tile where
  type : TileType
  x : ℚ
  y : ℚ
  isNegative : Bool
  rotation : ℕ
  uSize : ℚ
  xSize : ℚ
  w : ℚ
  h : ℚ
  targetX : Option ℚ
  targetY : Option ℚ
deriving DecidableEq, Repr

/-- `Tile.updateDimensions`: recompute `w`/`h` from kind, rotation and
the copied scale parameters. -/
def updateDimensions (t : Tile) : Tile :=
  match t.type with
  | .x2 => { t with w := t.xSize, h := t.xSize }
  | .x => { t with w := if t.rotation = 0 then t.xSize else t.uSize,
                   h := if t.rotation = 0 then t.uSize else t.xSize }
  | .one => { t with w := t.uSize, h := t.uSize }

/-- The `Tile` constructor: rotation 0, scale parameters copied from the
current configuration, then `updateDimensions`. -/
def mkTile (cfg : Config) (ty : TileType) (x y : ℚ) (isNeg : Bool) : Tile :=
  updateDimensions
    { type := ty, x := x, y := y, isNegative := isNeg, rotation := 0,
      uSize := cfg.u, xSize := cfg.x, w := 0, h := 0,
      targetX := none, targetY := none }

/-- `Tile.contains`: closed-rectangle point test. -/
def containsPoint (t : Tile) (mx my : ℚ) : Prop :=
  t.x ≤ mx ∧ mx ≤ t.x + t.w ∧ t.y ≤ my ∧ my ≤ t.y + t.h

/-- Sum of `w*h` over a tile list (the validator's area accumulators;
physical area, always positive). -/
def sumArea (l : List Tile) : ℚ :=
  l.foldl (fun s t => s + t.w * t.h) 0

/-- Bounding box of a nonempty tile list, as (minX, maxX, minY, maxY).
The source folds with `±Infinity` sentinels; over a nonempty list that
is the same as starting the fold from the first tile.  The `[]` case is
unreachable (the validator returns before computing the box). -/
def bboxOf : List Tile → ℚ × ℚ × ℚ × ℚ
  | [] => (0, 0, 0, 0)
  | t :: ts =>
    ts.foldl
      (fun bb u =>
        (min bb.1 u.x, max bb.2.1 (u.x + u.w), min bb.2.2.1 u.y,
          max bb.2.2.2 (u.y + u.h)))
      (t.x, t.x + t.w, t.y, t.y + t.h)

/-- `bboxWidth = maxX - minX`. -/
def bboxWidth (tiles : List Tile) : ℚ := (bboxOf tiles).2.1 - (bboxOf tiles).1

/-- `bboxHeight = maxY - minY`. -/
def bboxHeight (tiles : List Tile) : ℚ :=
  (bboxOf tiles).2.2.2 - (bboxOf tiles).2.2.1

/-- `bboxArea = bboxWidth * bboxHeight`. -/
def bboxArea (tiles : List Tile) : ℚ := bboxWidth tiles * bboxHeight tiles

/-- The validator's `hasNegative` flag. -/
def hasNeg (tiles : List Tile) : Bool := tiles.any (·.isNegative)

/-- The validator's `positiveTiles` sub-list (order preserved). -/
def posTiles (tiles : List Tile) : List Tile :=
  tiles.filter (fun t => !t.isNegative)

/-- The validator's `negativeTiles` sub-list (order preserved). -/
def negTiles (tiles : List Tile) : List Tile :=
  tiles.filter (fun t => t.isNegative)

/-- Error of one candidate `(countSquare, countUnit)` in
`getGridDimensions`: `|a*X_SIZE + b*U_SIZE - pixels|`. -/
def gridErr (X U pix : ℚ) (c : ℕ × ℕ) : ℚ :=
  |(c.1 : ℚ) * X + (c.2 : ℚ) * U - pix|

/-- The candidate pairs scanned by `getGridDimensions`, in loop order:
`a` (count of squares) from 1 to 5 outer, `b` (count of units) from
0 to 10 inner.  Note the `a` loop starts at 1, not 0. -/
def gridCandidates : List (ℕ × ℕ) :=
  ((List.range 5).map (· + 1)).flatMap
    (fun a => (List.range 11).map (fun b => (a, b)))

/-- One update of the running `(bestA, bestB, bestErr)` state of
`getGridDimensions`: `if (err < bestErr) { bestErr = err; ... }`.
`none` models the initial `bestErr = Infinity` state, which the first
candidate always beats. -/
def gridStep (f : ℕ × ℕ → ℚ) (acc : Option ((ℕ × ℕ) × ℚ)) (c : ℕ × ℕ) :
    Option ((ℕ × ℕ) × ℚ) :=
  match acc with
  | none => some (c, f c)
  | some pr => if f c < pr.2 then some (c, f c) else some pr

/-- The final best state of the `getGridDimensions` scan. -/
def bestGrid (X U pix : ℚ) : Option ((ℕ × ℕ) × ℚ) :=
  gridCandidates.foldl (gridStep (gridErr X U pix)) none

/-- `getGridDimensions`: grid-dimension inference from a measured pixel
length; returns the best candidate if its error is below 30, else
`(0, 0)`. -/
def getGridDimensions (X U pix : ℚ) : ℕ × ℕ :=
  match bestGrid X U pix with
  | some pr => if pr.2 < 30 then pr.1 else (0, 0)
  | none => (0, 0)

/-- Modelled from the claim's words, for comparison with the source's
`getGridDimensions`: the same search but with both counts ranging over
a small range including zero (`countSquare` 0–5, `countUnit` 0–10). -/
def specGridCandidates : List (ℕ × ℕ) :=
  (List.range 6).flatMap (fun a => (List.range 11).map (fun b => (a, b)))

/-- Modelled from the claim's words: best candidate over
`specGridCandidates`, accepted below the same 30-pixel threshold. -/
def specBestGrid (X U pix : ℚ) : Option ((ℕ × ℕ) × ℚ) :=
  specGridCandidates.foldl (gridStep (gridErr X U pix)) none

/-- Modelled from the claim's words: grid inference whose ranges both
include zero. -/
def specGetGridDimensions (X U pix : ℚ) : ℕ × ℕ :=
  match specBestGrid X U pix with
  | some pr => if pr.2 < 30 then pr.1 else (0, 0)
  | none => (0, 0)

/-- Validator outcome, one constructor per distinct user-facing message
of `validateArrangement`. -/
inductive Verdict where
  | nothingToCheck
  | validRect
  | validOverlap
  | invalid
deriving DecidableEq, Repr

/-- Whether a verdict is one of the two accepting ones (shown with
`isSuccess = true`). -/
def isAccept : Verdict → Bool
  | .validRect => true
  | .validOverlap => true
  | _ => false

/-- The `(p, q)` pairs scanned by the overlap model, in loop order:
`p` 0–5 outer, `q` 0–5 inner; `(0, 0)` is skipped inside the body. -/
def pqPairs : List (ℕ × ℕ) :=
  (List.range 6).flatMap (fun p => (List.range 6).map (fun q => (p, q)))

/-- Body of the validator's `(p, q)` loop: proposed factors
`(baseX_A·x + (base1_A - p))·(baseX_B·x + (base1_B - q))` must expand to
exactly `(valA, valB, valC)`, and the measured negative area must match
the inclusion–exclusion value within the 200 tolerance. -/
def overlapOK (cfg : Config) (valA valB valC : ℤ) (bw bh : ℚ)
    (dimsW dimsH : ℕ × ℕ) (negArea : ℚ) (pq : ℕ × ℕ) : Bool :=
  if pq.1 = 0 ∧ pq.2 = 0 then false
  else
    let f1x : ℤ := dimsW.1
    let f1c : ℤ := (dimsW.2 : ℤ) - (pq.1 : ℤ)
    let f2x : ℤ := dimsH.1
    let f2c : ℤ := (dimsH.2 : ℤ) - (pq.2 : ℤ)
    let resA := f1x * f2x
    let resB := f1x * f2c + f1c * f2x
    let resC := f1c * f2c
    decide (resA = valA ∧ resB = valB ∧ resC = valC) &&
      decide
        (|(pq.1 : ℚ) * cfg.u * bh + (pq.2 : ℚ) * cfg.u * bw -
            (pq.1 : ℚ) * (pq.2 : ℚ) * cfg.u * cfg.u - negArea| < 200)

/-- Core of `validateArrangement` after coefficient parsing: the verdict
computed from the tile list and integer coefficients.  Mirrors the
source's control flow: empty check, bounding box and area accumulation,
positive model, negative overlap model, generic failure. -/
def validateVerdict (cfg : Config) (tiles : List Tile)
    (valA valB valC : ℤ) : Verdict :=
  match tiles with
  | [] => .nothingToCheck
  | _ :: _ =>
    let bw := bboxWidth tiles
    let bh := bboxHeight tiles
    let bArea := bw * bh
    let tArea := sumArea tiles
    if hasNeg tiles = false then
      if |bArea - tArea| < 200 then .validRect else .invalid
    else if (posTiles tiles).length > 0 then
      let baseArea := sumArea (posTiles tiles)
      if |bArea - baseArea| < 200 then
        if pqPairs.any
            (overlapOK cfg valA valB valC bw bh
              (getGridDimensions cfg.x cfg.u bw)
              (getGridDimensions cfg.x cfg.u bh)
              (sumArea (negTiles tiles))) then
          .validOverlap
        else .invalid
      else .invalid
    else .invalid

/-- JS `parseInt(field.value) || d`: a malformed field (`NaN`, modelled
`none`) and a parsed `0` are both falsy, so both yield the default. -/
def jsOr (v : Option ℤ) (d : ℤ) : ℤ :=
  match v with
  | none => d
  | some n => if n = 0 then d else n

/-- The coefficient values `validateArrangement` computes from the three
form fields: `parseInt(...) || 0` each. -/
def validatorCoeffs (va vb vc : Option ℤ) : ℤ × ℤ × ℤ :=
  (jsOr va 0, jsOr vb 0, jsOr vc 0)

/-- The coefficient values `solveAndAnimate` computes from the three
form fields: `parseInt(...) || 1`, `|| 5`, `|| 6`. -/
def solverCoeffs (va vb vc : Option ℤ) : ℤ × ℤ × ℤ :=
  (jsOr va 1, jsOr vb 5, jsOr vc 6)

/-- `validateArrangement(silent)` as a state transformer: it parses the
coefficient fields, computes a verdict, and returns the tile list it
operated on.  The source reads tile fields but never writes any, so the
state component is the unchanged input list; `silent` only controls
whether the verdict's message is displayed, not what is computed. -/
def validateArrangement (cfg : Config) (tiles : List Tile)
    (va vb vc : Option ℤ) (silent : Bool) : List Tile × Verdict :=
  let coeffs := validatorCoeffs va vb vc
  let _ := silent
  (tiles, validateVerdict cfg tiles coeffs.1 coeffs.2.1 coeffs.2.2)

/-- The fixed snap tolerance `snapDist = 15` of `snapToNeighbors`. -/
def snapDist : ℚ := 15

/-- One iteration of the `snapToNeighbors` loop against a single
stationary tile: the source's cascade of outer families (right, left,
bottom, top of `other`) followed by the inner families (left-left and
top-top alignment), flattened into one `if` chain in the same order;
each family's facing test combines with its perpendicular alternatives
in source order.  Returns the adjusted `(x, y)` of the first matching
branch, or `none` when no branch matches. -/
def applySnapOne (tile o : Tile) : Option (ℚ × ℚ) :=
  let tL := tile.x
  let tR := tile.x + tile.w
  let tT := tile.y
  let tB := tile.y + tile.h
  let oL := o.x
  let oR := o.x + o.w
  let oT := o.y
  let oB := o.y + o.h
  if |tL - oR| < snapDist ∧ |tT - oT| < snapDist then some (oR, oT)
  else if |tL - oR| < snapDist ∧ |tB - oB| < snapDist then
    some (oR, oB - tile.h)
  else if |tR - oL| < snapDist ∧ |tT - oT| < snapDist then
    some (oL - tile.w, oT)
  else if |tR - oL| < snapDist ∧ |tB - oB| < snapDist then
    some (oL - tile.w, oB - tile.h)
  else if |tT - oB| < snapDist ∧ |tL - oL| < snapDist then some (oL, oB)
  else if |tT - oB| < snapDist ∧ |tR - oR| < snapDist then
    some (oR - tile.w, oB)
  else if |tB - oT| < snapDist ∧ |tL - oL| < snapDist then
    some (oL, oT - tile.h)
  else if |tB - oT| < snapDist ∧ |tR - oR| < snapDist then
    some (oR - tile.w, oT - tile.h)
  else if |tL - oL| < snapDist ∧ |tT - oT| < snapDist then some (oL, oT)
  else if |tL - oL| < snapDist ∧ |tB - oB| < snapDist then
    some (oL, oB - tile.h)
  else if |tL - oL| < snapDist ∧ |tT - oB| < snapDist then some (oL, oB)
  else if |tL - oL| < snapDist ∧ |tB - oT| < snapDist then
    some (oL, oT - tile.h)
  else if |tT - oT| < snapDist ∧ |tL - oL| < snapDist then some (oL, oT)
  else if |tT - oT| < snapDist ∧ |tR - oR| < snapDist then
    some (oR - tile.w, oT)
  else if |tT - oT| < snapDist ∧ |tL - oR| < snapDist then some (oR, oT)
  else if |tT - oT| < snapDist ∧ |tR - oL| < snapDist then
    some (oL - tile.w, oT)
  else none

/-- `snapToNeighbors`: walk the stationary tiles in arrangement order
(the loop skips the moving tile itself, so `others` is the list without
it); the first tile with a matching branch adjusts the moving tile's
position and the loop breaks. -/
def snapToNeighbors (tile : Tile) : List Tile → Tile
  | [] => tile
  | o :: rest =>
    match applySnapOne tile o with
    | some pos => { tile with x := pos.1, y := pos.2 }
    | none => snapToNeighbors tile rest

/-- Alignment family 1 of the snap resolver: the moving tile's left edge
faces the other's right edge, with one of the two perpendicular
alignments (top-top or bottom-bottom). -/
def fam1 (tile o : Tile) : Prop :=
  |tile.x - (o.x + o.w)| < snapDist ∧
    (|tile.y - o.y| < snapDist ∨
      |tile.y + tile.h - (o.y + o.h)| < snapDist)

/-- Alignment family 2: the moving tile's right edge faces the other's
left edge, with a perpendicular alignment. -/
def fam2 (tile o : Tile) : Prop :=
  |tile.x + tile.w - o.x| < snapDist ∧
    (|tile.y - o.y| < snapDist ∨
      |tile.y + tile.h - (o.y + o.h)| < snapDist)

/-- Alignment family 3: the moving tile's top edge faces the other's
bottom edge, with a perpendicular alignment (left-left or right-right). -/
def fam3 (tile o : Tile) : Prop :=
  |tile.y - (o.y + o.h)| < snapDist ∧
    (|tile.x - o.x| < snapDist ∨
      |tile.x + tile.w - (o.x + o.w)| < snapDist)

/-- Alignment family 4: the moving tile's bottom edge faces the other's
top edge, with a perpendicular alignment. -/
def fam4 (tile o : Tile) : Prop :=
  |tile.y + tile.h - o.y| < snapDist ∧
    (|tile.x - o.x| < snapDist ∨
      |tile.x + tile.w - (o.x + o.w)| < snapDist)

/-- Structural floor square root (largest `m ≤ k` with `m*m ≤ n`, scanned
downward), used to embed `Math.floor(Math.sqrt(num))` executably. -/
def sqrtAux (n : ℕ) : ℕ → ℕ
  | 0 => 0
  | m + 1 => if (m + 1) * (m + 1) ≤ n then m + 1 else sqrtAux n m

/-- `Math.floor(Math.sqrt(n))` for a natural `n` (exact for the small
classroom coefficients in range). -/
def floorSqrt (n : ℕ) : ℕ := sqrtAux n n

/-- The `while (m > 0)` loop of `getClosestFactors`: scan `m` downward,
return `[m, num/m]` at the first divisor; the fall-through result for
`m = 0` is the source's final `return [1, num]`. -/
def factorLoop (num : ℕ) : ℕ → ℕ × ℕ
  | 0 => (1, num)
  | m + 1 =>
    if num % (m + 1) = 0 then (m + 1, num / (m + 1))
    else factorLoop num m

/-- `getClosestFactors`: factor `|a|` into the closest pair `(m, n)`,
starting the downward scan at `⌊√|a|⌋`. -/
def getClosestFactors (a : ℤ) : ℕ × ℕ :=
  factorLoop a.natAbs (floorSqrt a.natAbs)

/-- The consecutive integers `s, s+1, ..., s+k-1`, embedding the solver's
`for (let i = -limit; i <= limit; i++)` index sequence. -/
def intRange (s : ℤ) : ℕ → List ℤ
  | 0 => []
  | k + 1 => s :: intRange (s + 1) k

/-- The solver's search bound: `Math.abs(c) === 0 ? Math.abs(b) :
Math.abs(c)`. -/
def solveLimit (b c : ℤ) : ℕ := if c.natAbs = 0 then b.natAbs else c.natAbs

/-- The `q` the solver pairs with an accepted index `i`: `c / i` when
`c ≠ 0` (only used under the `c % i === 0` guard, where JS and Lean
division agree), else `b / m` when `m ≠ 0` divides `b`, else 0. -/
def solveQ (m b c i : ℤ) : ℤ :=
  if c ≠ 0 then c / i
  else if m ≠ 0 ∧ b % m = 0 then b / m
  else 0

/-- One iteration of the solver loop as a pass/skip test: for `c ≠ 0`
the index must be nonzero, divide `c`, and satisfy `m·q + n·p = b`; for
`c = 0` only index 0 is tried, with its `q` from `solveQ`. -/
def pqHit (m n b c i : ℤ) : Bool :=
  if c ≠ 0 then
    decide (i ≠ 0) && decide (c % i = 0) &&
      decide (m * (c / i) + n * i = b)
  else decide (i = 0) && decide (m * solveQ m b c i + n * i = b)

/-- The solver's bounded `(p, q)` search: first index in
`[-limit, limit]` passing `pqHit`, paired with its `q` (the loop's
`break` is the first-match semantics of `find?`). -/
def solveSearch (m n b c : ℤ) : Option (ℤ × ℤ) :=
  let limit := solveLimit b c
  ((intRange (-(limit : ℤ)) (2 * limit + 1)).find? (pqHit m n b c)).map
    (fun i => (i, solveQ m b c i))

/-- `generateTiles`: replace the arrangement with freshly spawned tiles
for `(a, b, c)` — a row of `|a|` x² tiles stepping by `SIZES.x + GAP`,
then `|b|` bars stepping by 50 and wrapping every 10 (x 50, y +110),
then `|c|` units stepping by 50; each group negative iff its coefficient
is negative.  The running `(startX, startY)` cursors are threaded through
folds exactly as in the source (`startY` starts at 50, gains 120 before
the bars and 120 again before the units). -/
def generateTiles (cfg : Config) (a b c : ℤ) : List Tile :=
  let x2Fold :=
    (List.range a.natAbs).foldl
      (fun (acc : List Tile × ℚ) _ =>
        (acc.1 ++ [mkTile cfg .x2 acc.2 50 (a < 0)], acc.2 + cfg.x + 10))
      ([], 50)
  let xFold :=
    (List.range b.natAbs).foldl
      (fun (acc : List Tile × ℚ × ℚ) i =>
        let withTile := acc.1 ++ [mkTile cfg .x acc.2.1 acc.2.2 (b < 0)]
        if i % 10 = 9 then (withTile, 50, acc.2.2 + 110)
        else (withTile, acc.2.1 + 50, acc.2.2))
      ([], 50, 50 + 120)
  let oneFold :=
    (List.range c.natAbs).foldl
      (fun (acc : List Tile × ℚ) _ =>
        (acc.1 ++ [mkTile cfg .one acc.2 (xFold.2.2 + 120) (c < 0)],
          acc.2 + 50))
      ([], 50)
  x2Fold.1 ++ xFold.1 ++ oneFold.1

/-- Target assignment for the i-th x² tile (in filtered-list order):
the positions iterate rows then columns over the `n × m` base grid, so
the i-th consumed tile lands at row `i / m`, column `i % m`; tiles
beyond the grid keep their previous target. -/
def assignX2Target (m n : ℕ) (startX startY : ℚ) (t : Tile) (idx : ℕ) :
    Tile :=
  if idx < n * m then
    { t with targetX := some (startX + ((idx % m : ℕ) : ℚ) * t.xSize),
             targetY := some (startY + ((idx / m : ℕ) : ℚ) * t.xSize) }
  else t

/-- Target assignment for the i-th bar tile: the first `|p|·n` consumed
bars become the vertical group (rotation 1, columns of width `U` right
of the base, column-major), the next `|q|·m` the horizontal group
(rotation 0, rows of height `U` below the base, row-major); the rest
keep their previous state. -/
def assignXTarget (cfg : Config) (m n : ℕ) (p q : ℤ)
    (startX startY vStartX hStartY : ℚ) (t : Tile) (idx : ℕ) : Tile :=
  if idx < p.natAbs * n then
    let t := updateDimensions { t with rotation := 1 }
    { t with targetX := some (vStartX + ((idx / n : ℕ) : ℚ) * cfg.u),
             targetY := some (startY + ((idx % n : ℕ) : ℚ) * cfg.x) }
  else if idx < p.natAbs * n + q.natAbs * m then
    let k := idx - p.natAbs * n
    let t := updateDimensions { t with rotation := 0 }
    { t with targetX := some (startX + ((k % m : ℕ) : ℚ) * cfg.x),
             targetY := some (hStartY + ((k / m : ℕ) : ℚ) * cfg.u) }
  else t

/-- Target assignment for the i-th unit tile: the `|q| × |p|` corner
block at the intersection of the two bar groups, rows then columns. -/
def assignOneTarget (cfg : Config) (p q : ℤ) (uStartX uStartY : ℚ)
    (t : Tile) (idx : ℕ) : Tile :=
  if idx < q.natAbs * p.natAbs then
    { t with
        targetX := some (uStartX + ((idx % p.natAbs : ℕ) : ℚ) * cfg.u),
        targetY := some (uStartY + ((idx / p.natAbs : ℕ) : ℚ) * cfg.u) }
  else t

/-- Walk the arrangement applying the per-kind target assignment with
per-kind running indices.  The source mutates the members of the three
filtered lists in place; since those share the arrangement's tiles, the
net effect is exactly this in-order walk. -/
def assignWalk (fx2 fx fone : Tile → ℕ → Tile) :
    List Tile → ℕ → ℕ → ℕ → List Tile
  | [], _, _, _ => []
  | t :: ts, i2, ix, i1 =>
    match t.type with
    | .x2 => fx2 t i2 :: assignWalk fx2 fx fone ts (i2 + 1) ix i1
    | .x => fx t ix :: assignWalk fx2 fx fone ts i2 (ix + 1) i1
    | .one => fone t i1 :: assignWalk fx2 fx fone ts i2 ix (i1 + 1)

/-- The target-assignment phase of `solveAndAnimate` for accepted
`(m, n, p, q)`: base grid centred on the canvas, vertical bar block at
the base's right edge (inset by the overlap when `p < 0`), horizontal
block below (inset when `q < 0`), unit block at their intersection. -/
def assignTargets (cfg : Config) (m n : ℕ) (p q : ℤ) (cw ch : ℚ)
    (tiles : List Tile) : List Tile :=
  let gridW := (m : ℚ) * cfg.x
  let gridH := (n : ℚ) * cfg.x
  let totalW := if p > 0 then gridW + (p : ℚ) * cfg.u else gridW
  let totalH := if q > 0 then gridH + (q : ℚ) * cfg.u else gridH
  let startX := (cw - totalW) / 2
  let startY := (ch - totalH) / 2
  let vStartX :=
    if p < 0 then startX + gridW - (p.natAbs : ℚ) * cfg.u
    else startX + gridW
  let hStartY :=
    if q < 0 then startY + gridH - (q.natAbs : ℚ) * cfg.u
    else startY + gridH
  assignWalk (assignX2Target m n startX startY)
    (assignXTarget cfg m n p q startX startY vStartX hStartY)
    (assignOneTarget cfg p q vStartX hStartY) tiles 0 0 0

/-- Render rank of the final z-order sort: x² behind bars behind units. -/
def tileRank (t : Tile) : ℕ :=
  match t.type with
  | .x2 => 1
  | .x => 2
  | .one => 3

/-- The final `this.tiles.sort` by rank.  JS `Array.prototype.sort` is
stable, and a stable sort on a three-valued key is the concatenation of
the key classes in key order. -/
def sortByRank (tiles : List Tile) : List Tile :=
  tiles.filter (fun t => decide (tileRank t = 1)) ++
    tiles.filter (fun t => decide (tileRank t = 2)) ++
    tiles.filter (fun t => decide (tileRank t = 3))

/-- Observable outcome of `solveAndAnimate`: the arrangement after the
call, whether the "doesn't favor nice integer rectangles" failure
message was shown, and whether the animation was started. -/
structure SolveOutcome where
  tiles : List Tile
  failed : Bool
  animating : Bool
deriving DecidableEq, Repr

/-- `solveAndAnimate`: parse the coefficients with demo defaults
(`|| 1`, `|| 5`, `|| 6`), replace the arrangement via `generateTiles`,
factor `a`, run the bounded `(p, q)` search; on failure show the
failure message and return, on success assign targets, re-sort the
z-order, and start animating.  `tiles0` is the arrangement before the
call; `generateTiles` discards it unconditionally. -/
def solveAndAnimate (cfg : Config) (tiles0 : List Tile)
    (va vb vc : Option ℤ) (cw ch : ℚ) : SolveOutcome :=
  let _ := tiles0
  let a := jsOr va 1
  let b := jsOr vb 5
  let c := jsOr vc 6
  let gen := generateTiles cfg a b c
  let mn := getClosestFactors a
  match solveSearch (mn.1 : ℤ) (mn.2 : ℤ) b c with
  | none => { tiles := gen, failed := true, animating := false }
  | some pq =>
    { tiles := sortByRank (assignTargets cfg mn.1 mn.2 pq.1 pq.2 cw ch gen),
      failed := false, animating := true }

/-- The tile state the animation loop in `render` reads and writes: the
position and an assigned target position (the loop only runs for tiles
whose targets have been set by the planner). -/
structure ATile where
  x : ℚ
  y : ℚ
  targetX : ℚ
  targetY : ℚ
deriving DecidableEq, Repr

/-- One axis of one animation step: move 10% of the remaining distance
while it exceeds 0.5 pixels, else snap exactly to the target; the flag
reports whether the axis moved (the loop's `active`). -/
def stepAxis (x target : ℚ) : ℚ × Bool :=
  if |x - target| > 1 / 2 then (x + (target - x) * (1 / 10), true)
  else (target, false)

/-- One animation step of a single tile: both axes independently. -/
def stepTile (t : ATile) : ATile × Bool :=
  let mx := stepAxis t.x t.targetX
  let my := stepAxis t.y t.targetY
  ({ t with x := mx.1, y := my.1 }, mx.2 || my.2)

/-- One invocation of the animation block of `render`: step every tile;
`active` is true iff some axis of some tile moved. -/
def stepAll (ts : List ATile) : List ATile × Bool :=
  (ts.map (fun t => (stepTile t).1), ts.any (fun t => (stepTile t).2))

/-- The arrangement after `k` animation steps. -/
def runSteps (ts : List ATile) : ℕ → List ATile
  | 0 => ts
  | k + 1 => (stepAll (runSteps ts k)).1

/-- The `active` flag of step `k + 1` (step counting from state
`runSteps ts k`); the loop settles — stops rescheduling and runs the
silent self-check — exactly when this is false. -/
def activeAt (ts : List ATile) (k : ℕ) : Bool := (stepAll (runSteps ts k)).2

/-- Position of one axis after `k` steps toward `target`. -/
def axisIter (x target : ℚ) : ℕ → ℚ
  | 0 => x
  | k + 1 => (stepAxis (axisIter x target k) target).1

/-- A single tile after `k` steps. -/
def tileIter (t : ATile) (k : ℕ) : ATile :=
  { t with x := axisIter t.x t.targetX k, y := axisIter t.y t.targetY k }

/-- A tile that has reached its target on both axes. -/
def atTarget (t : ATile) : Prop := t.x = t.targetX ∧ t.y = t.targetY

lemma mem_intRange : ∀ (k : ℕ) (s x : ℤ), x ∈ intRange s k ↔ s ≤ x ∧ x < s + k := by
  intro k
  induction k with
  | zero =>
    intro s x
    simp only [intRange, List.not_mem_nil, false_iff]
    omega
  | succ k ih =>
    intro s x
    simp only [intRange, List.mem_cons, ih (s + 1) x]
    omega

lemma find?_intRange_some : ∀ (k : ℕ) (s : ℤ) (p : ℤ → Bool) (x : ℤ),
    (intRange s k).find? p = some x →
    p x = true ∧ s ≤ x ∧ x < s + k ∧ ∀ y, s ≤ y → y < x → p y = false := by
  intro k
  induction k with
  | zero => intro s p x h; simp [intRange] at h
  | succ k ih =>
    intro s p x h
    rw [intRange] at h
    by_cases hp : p s
    · rw [List.find?_cons_of_pos _ hp] at h
      have hsx := Option.some.inj h
      subst hsx
      exact ⟨hp, le_rfl, by omega, fun y hy1 hy2 => absurd hy2 (by omega)⟩
    · rw [List.find?_cons_of_neg _ hp] at h
      obtain ⟨h1, h2, h3, h4⟩ := ih (s + 1) p x h
      refine ⟨h1, by omega, by omega, fun y hy1 hy2 => ?_⟩
      rcases eq_or_lt_of_le hy1 with rfl | hlt
      · simpa using hp
      · exact h4 y (by omega) hy2

lemma find?_intRange_of_first : ∀ (k : ℕ) (s : ℤ) (p : ℤ → Bool) (x : ℤ),
    s ≤ x → x < s + k → p x = true → (∀ y, s ≤ y → y < x → p y = false) →
    (intRange s k).find? p = some x := by
  intro k
  induction k with
  | zero => intro s p x h1 h2 _ _; exact absurd h1 (by omega)
  | succ k ih =>
    intro s p x h1 h2 hx hmin
    rw [intRange]
    rcases eq_or_lt_of_le h1 with rfl | hlt
    · rw [List.find?_cons_of_pos _ hx]
    · rw [List.find?_cons_of_neg]
      · exact ih (s + 1) p x (by omega) (by omega) hx
          (fun y hy1 hy2 => hmin y (by omega) hy2)
      · simp [hmin s le_rfl hlt]

lemma pqHit_of_ne (m n b c i : ℤ) (hc : c ≠ 0) :
    pqHit m n b c i = true ↔ i ≠ 0 ∧ c % i = 0 ∧ m * (c / i) + n * i = b := by
  simp [pqHit, if_pos hc, and_assoc]

/-- C3: for `c ≠ 0` the solver scans `p` over `[-|c|, |c|]` in increasing
order, skipping `p = 0` and non-divisors of `c`, pairs each with
`q = c / p`, and accepts the first pair with `m·q + n·p = b`; for `c = 0`
only `p = 0` is tried, with `q = b/m` when `m ≠ 0` divides `b` and `q = 0`
otherwise; and an exhausted search yields `none` (a reported failure, not
a crash), which happens exactly when no candidate in range satisfies the
equation. -/
theorem C3_solver_search (m n b c : ℤ) :
    (c ≠ 0 →
      (∀ p q : ℤ, solveSearch m n b c = some (p, q) →
        p ≠ 0 ∧ p ∣ c ∧ q = c / p ∧ m * q + n * p = b ∧
          -|c| ≤ p ∧ p ≤ |c| ∧
          ∀ i : ℤ, -|c| ≤ i → i < p → i ≠ 0 → i ∣ c →
            m * (c / i) + n * i ≠ b) ∧
      (solveSearch m n b c = none →
        ∀ i : ℤ, -|c| ≤ i → i ≤ |c| → i ≠ 0 → i ∣ c →
          m * (c / i) + n * i ≠ b)) ∧
    (c = 0 →
      solveSearch m n b c =
        if m * (if m ≠ 0 ∧ m ∣ b then b / m else 0) = b then
          some (0, if m ≠ 0 ∧ m ∣ b then b / m else 0)
        else none) := by
  constructor
  · intro hc
    have hlim : solveLimit b c = c.natAbs := by
      simp [solveLimit, Int.natAbs_eq_zero, hc]
    constructor
    · intro p q h
      simp only [solveSearch, hlim, Option.map_eq_some'] at h
      obtain ⟨i, hfind, hpair⟩ := h
      obtain ⟨hhit, hlo, hhi, hmin⟩ := find?_intRange_some _ _ _ _ hfind
      obtain ⟨hi0, hidvd, hieq⟩ := (pqHit_of_ne m n b c i hc).mp hhit
      have hqv : solveQ m b c i = c / i := by simp [solveQ, hc]
      simp only [Prod.mk.injEq] at hpair
      obtain ⟨rfl, rfl⟩ := hpair
      have habs : |c| = (c.natAbs : ℤ) := Int.abs_eq_natAbs c
      refine ⟨hi0, Int.dvd_of_emod_eq_zero hidvd, hqv,
        by rw [hqv]; exact hieq, by omega, by omega, ?_⟩
      intro j hj1 hj2 hj0 hjdvd hjeq
      have hfalse := hmin j (by omega) hj2
      have htrue : pqHit m n b c j = true :=
        (pqHit_of_ne m n b c j hc).mpr
          ⟨hj0, Int.emod_eq_zero_of_dvd hjdvd, hjeq⟩
      rw [hfalse] at htrue
      exact Bool.false_ne_true htrue
    · intro h i hi1 hi2 hi0 hidvd hieq
      simp only [solveSearch, hlim, Option.map_eq_none'] at h
      have habs : |c| = (c.natAbs : ℤ) := Int.abs_eq_natAbs c
      have hmem : i ∈ intRange (-(c.natAbs : ℤ)) (2 * c.natAbs + 1) := by
        rw [mem_intRange]; omega
      have := List.find?_eq_none.mp h i hmem
      exact this ((pqHit_of_ne m n b c i hc).mpr
        ⟨hi0, Int.emod_eq_zero_of_dvd hidvd, hieq⟩)
  · rintro rfl
    have hq0 : solveQ m b 0 0 =
        (if m ≠ 0 ∧ m ∣ b then b / m else 0) := by
      simp only [solveQ, ne_eq, not_true_eq_false, if_false]
      by_cases hm : m = 0
      · simp [hm]
      · by_cases hd : m ∣ b
        · rw [if_pos ⟨hm, Int.emod_eq_zero_of_dvd hd⟩, if_pos ⟨hm, hd⟩]
        · rw [if_neg, if_neg]
          · exact fun h => hd h.2
          · exact fun h => hd (Int.dvd_of_emod_eq_zero h.2)
    have hlim : solveLimit b 0 = b.natAbs := by simp [solveLimit]
    by_cases hhit : m * (if m ≠ 0 ∧ m ∣ b then b / m else 0) = b
    · rw [if_pos hhit]
      have hpq : pqHit m n b 0 0 = true := by
        simp only [pqHit, ne_eq, not_true_eq_false, if_false, mul_zero,
          add_zero]
        rw [hq0, decide_eq_true hhit]
        simp
      simp only [solveSearch, hlim]
      rw [find?_intRange_of_first (2 * b.natAbs + 1) (-(b.natAbs : ℤ))
        (pqHit m n b 0) 0 (by omega) (by omega) hpq ?_]
      · simp [hq0]
      · intro y _ hy2
        simp only [pqHit, ne_eq, not_true_eq_false, if_false]
        rw [decide_eq_false (show ¬(y = 0) by omega), Bool.false_and]
    · rw [if_neg hhit]
      simp only [solveSearch, hlim, Option.map_eq_none']
      rw [List.find?_eq_none]
      intro y _
      simp only [pqHit, ne_eq, not_true_eq_false, if_false]
      by_cases hy : y = 0
      · subst hy
        rw [hq0]
        simp only [mul_zero, add_zero]
        rw [decide_eq_false hhit, Bool.and_false]
        exact Bool.false_ne_true
      · rw [decide_eq_false hy, Bool.false_and]
        exact Bool.false_ne_true

/-- Instantiation of `C3_solver_search` at `m = n = 1`, `b = 5`, `c = 0`:
the degenerate branch returns `(p, q) = (0, 5)`. -/
theorem C3_witness : solveSearch 1 1 5 0 = some (0, 5) := by
  rw [(C3_solver_search 1 1 5 0).2 rfl]
  decide

lemma sqrtAux_eq (n : ℕ) : ∀ k, Nat.sqrt n ≤ k → sqrtAux n k = Nat.sqrt n := by
  intro k
  induction k with
  | zero =>
    intro h
    simp only [sqrtAux]
    omega
  | succ k ih =>
    intro h
    rw [sqrtAux]
    by_cases hle : (k + 1) * (k + 1) ≤ n
    · rw [if_pos hle]
      have h1 : k + 1 ≤ Nat.sqrt n := Nat.le_sqrt.mpr hle
      omega
    · rw [if_neg hle]
      apply ih
      have h2 : ¬(k + 1 ≤ Nat.sqrt n) := fun hk => hle (Nat.le_sqrt.mp hk)
      omega

lemma floorSqrt_eq (n : ℕ) : floorSqrt n = Nat.sqrt n :=
  sqrtAux_eq n n (Nat.sqrt_le_self n)

lemma factorLoop_spec (num : ℕ) :
    ∀ k, 1 ≤ k →
      0 < (factorLoop num k).1 ∧ (factorLoop num k).1 ≤ k ∧
        (factorLoop num k).1 ∣ num ∧
        (factorLoop num k).2 = num / (factorLoop num k).1 ∧
        ∀ j, j ≤ k → j ∣ num → j ≤ (factorLoop num k).1 := by
  intro k
  induction k with
  | zero => intro h; exact absurd h (by omega)
  | succ k ih =>
    intro _
    rw [factorLoop]
    by_cases hdvd : num % (k + 1) = 0
    · rw [if_pos hdvd]
      exact ⟨Nat.succ_pos k, le_rfl, Nat.dvd_of_mod_eq_zero hdvd, rfl,
        fun j hj _ => hj⟩
    · rw [if_neg hdvd]
      have hk1 : 1 ≤ k := by
        rcases Nat.eq_zero_or_pos k with rfl | h
        · exact absurd (Nat.mod_one num) hdvd
        · omega
      obtain ⟨h1, h2, h3, h4, h5⟩ := ih hk1
      refine ⟨h1, by omega, h3, h4, fun j hj hjd => ?_⟩
      rcases Nat.lt_or_ge j (k + 1) with hlt | hge
      · exact h5 j (by omega) hjd
      · obtain rfl : j = k + 1 := by omega
        exact absurd (Nat.dvd_iff_mod_eq_zero.mp hjd) hdvd

/-- C4 counterexample: the factor split at `a = 0` returns `(1, 0)`, not
the `(0, 0)` the claim states (`floorSqrt 0 = 0`, so the loop body never
runs and the fall-through `return [1, num]` fires). -/
theorem C4_counterexample :
    getClosestFactors 0 = (1, 0) ∧ getClosestFactors 0 ≠ (0, 0) := by
  decide

/-- C4 (amended): for `a ≠ 0` the factor split returns `(m, |a|/m)` with
`m` the largest divisor of `|a|` not exceeding `⌊√|a|⌋`; for `a = 0` it
returns `(1, 0)` (not `(0, 0)` as claimed). -/
theorem C4_closest_factors (a : ℤ) :
    (a = 0 → getClosestFactors a = (1, 0)) ∧
    (a ≠ 0 →
      0 < (getClosestFactors a).1 ∧
        (getClosestFactors a).1 ≤ Nat.sqrt a.natAbs ∧
        (getClosestFactors a).1 ∣ a.natAbs ∧
        (getClosestFactors a).2 = a.natAbs / (getClosestFactors a).1 ∧
        ∀ j, j ≤ Nat.sqrt a.natAbs → j ∣ a.natAbs →
          j ≤ (getClosestFactors a).1) := by
  constructor
  · rintro rfl
    decide
  · intro ha
    have hpos : 0 < a.natAbs := Int.natAbs_pos.mpr ha
    have hs1 : 1 ≤ Nat.sqrt a.natAbs := Nat.le_sqrt.mpr (by omega)
    have h := factorLoop_spec a.natAbs (Nat.sqrt a.natAbs) hs1
    simp only [getClosestFactors, floorSqrt_eq]
    exact h

/-- Instantiation of `C4_closest_factors` at `a = 12`. -/
theorem C4_witness :
    0 < (getClosestFactors 12).1 ∧ (getClosestFactors 12).1 ∣ (12 : ℤ).natAbs :=
  ⟨((C4_closest_factors 12).2 (by decide)).1,
    ((C4_closest_factors 12).2 (by decide)).2.2.1⟩

/-- C9 counterexample: a malformed `a` field at the solver entry point is
coerced to the demo default 1 — not to 0 as the claim states. -/
theorem C9_counterexample :
    (solverCoeffs none (some 5) (some 6)).1 = 1 ∧
      (solverCoeffs none (some 5) (some 6)).1 ≠ 0 := by
  decide

/-- C9 (amended): a malformed or missing coefficient never raises; the
validator coerces it to 0, while the solver coerces it to the demo
defaults 1, 5, 6 for `a`, `b`, `c` respectively. -/
theorem C9_coercion (va vb vc : Option ℤ) :
    (va = none →
      (validatorCoeffs va vb vc).1 = 0 ∧ (solverCoeffs va vb vc).1 = 1) ∧
    (vb = none →
      (validatorCoeffs va vb vc).2.1 = 0 ∧ (solverCoeffs va vb vc).2.1 = 5) ∧
    (vc = none →
      (validatorCoeffs va vb vc).2.2 = 0 ∧ (solverCoeffs va vb vc).2.2 = 6) := by
  refine ⟨?_, ?_, ?_⟩ <;> rintro rfl <;> exact ⟨rfl, rfl⟩

/-- Instantiation of `C9_coercion` with every field malformed. -/
theorem C9_witness :
    (validatorCoeffs none none none).1 = 0 ∧
      (solverCoeffs none none none).1 = 1 :=
  (C9_coercion none none none).1 rfl

/-- C10: validation is read-only on the arrangement — in silent or
non-silent mode the tile list (hence every tile's position, size, kind,
orientation and sign) after the call is the input list; the source only
reads tile fields, so the embedded state component is returned
untouched. -/
theorem C10_validator_readonly (cfg : Config) (tiles : List Tile)
    (va vb vc : Option ℤ) (silent : Bool) :
    (validateArrangement cfg tiles va vb vc silent).1 = tiles := rfl

lemma solveAndAnimate_of_none (cfg : Config) (tiles0 : List Tile)
    (va vb vc : Option ℤ) (cw ch : ℚ)
    (h : solveSearch ((getClosestFactors (jsOr va 1)).1 : ℤ)
      ((getClosestFactors (jsOr va 1)).2 : ℤ) (jsOr vb 5) (jsOr vc 6) =
      none) :
    solveAndAnimate cfg tiles0 va vb vc cw ch =
      { tiles := generateTiles cfg (jsOr va 1) (jsOr vb 5) (jsOr vc 6),
        failed := true, animating := false } := by
  simp only [solveAndAnimate]
  rw [h]

/-- C1 counterexample: at `(a, b, c) = (1, 1, 1)` the search fails (the
failure message is shown) yet an empty pre-call arrangement has become a
nonempty generated one — the arrangement is not left as it was. -/
theorem C1_counterexample :
    (solveAndAnimate desktopConfig [] (some 1) (some 1) (some 1)
        1000 700).failed = true ∧
      (solveAndAnimate desktopConfig [] (some 1) (some 1) (some 1)
        1000 700).tiles ≠ [] := by
  rw [solveAndAnimate_of_none desktopConfig [] (some 1) (some 1) (some 1)
    1000 700 (by decide)]
  refine ⟨rfl, ?_⟩
  rw [show jsOr (some 1) 1 = 1 from rfl, show jsOr (some 1) 5 = 1 from rfl,
    show jsOr (some 1) 6 = 1 from rfl]
  simp [generateTiles, show List.range 1 = [0] from rfl]

/-- C1 (amended): when the bounded search finds no `(p, q)` pair, the
solve operation reports the distinct failure and assigns no targets,
does not re-sort and does not start animating; but the arrangement has
already been replaced by the tiles freshly generated from `(a, b, c)`
before the search runs, so the pre-call arrangement (here `tiles0`,
absent from the result) is not preserved. -/
theorem C1_solver_failure (cfg : Config) (tiles0 : List Tile)
    (va vb vc : Option ℤ) (cw ch : ℚ)
    (h : solveSearch ((getClosestFactors (jsOr va 1)).1 : ℤ)
      ((getClosestFactors (jsOr va 1)).2 : ℤ) (jsOr vb 5) (jsOr vc 6) =
      none) :
    solveAndAnimate cfg tiles0 va vb vc cw ch =
      { tiles := generateTiles cfg (jsOr va 1) (jsOr vb 5) (jsOr vc 6),
        failed := true, animating := false } :=
  solveAndAnimate_of_none cfg tiles0 va vb vc cw ch h

/-- Instantiation of `C1_solver_failure` at `(1, 1, 1)` over an empty
arrangement. -/
theorem C1_witness :
    solveAndAnimate desktopConfig [] (some 1) (some 1) (some 1) 1000 700 =
      { tiles := generateTiles desktopConfig 1 1 1, failed := true,
        animating := false } :=
  C1_solver_failure desktopConfig [] (some 1) (some 1) (some 1) 1000 700
    (by decide)

lemma stepAxis_fst_of_gt {x t : ℚ} (h : |x - t| > 1 / 2) :
    (stepAxis x t).1 = x + (t - x) * (1 / 10) := by
  rw [stepAxis, if_pos h]

lemma stepAxis_fst_of_le {x t : ℚ} (h : |x - t| ≤ 1 / 2) :
    (stepAxis x t).1 = t := by
  rw [stepAxis, if_neg (not_lt.mpr h)]

lemma stepAxis_snd_true {x t : ℚ} :
    (stepAxis x t).2 = true ↔ |x - t| > 1 / 2 := by
  rw [stepAxis]
  split_ifs with h
  · simpa using h
  · simpa using h

lemma stepAxis_snd_false {x t : ℚ} :
    (stepAxis x t).2 = false ↔ |x - t| ≤ 1 / 2 := by
  rw [stepAxis]
  split_ifs with h
  · simpa using not_le.mpr h
  · simpa using not_lt.mp h

lemma axisIter_target (x t : ℚ) (k : ℕ) (h : axisIter x t k = t) :
    axisIter x t (k + 1) = t := by
  rw [axisIter, h]
  exact stepAxis_fst_of_le (by norm_num)

lemma axisIter_decay (x t : ℚ) :
    ∀ k, axisIter x t k = t ∨
      |axisIter x t k - t| = (9 / 10 : ℚ) ^ k * |x - t| := by
  intro k
  induction k with
  | zero => right; simp [axisIter]
  | succ k ih =>
    rcases ih with h | h
    · left
      exact axisIter_target x t k h
    · by_cases hgt : |axisIter x t k - t| > 1 / 2
      · right
        rw [axisIter, stepAxis_fst_of_gt hgt]
        have heq : axisIter x t k + (t - axisIter x t k) * (1 / 10) - t =
            (axisIter x t k - t) * (9 / 10) := by ring
        rw [heq, abs_mul, h, abs_of_pos (by norm_num : (0 : ℚ) < 9 / 10)]
        ring
      · left
        rw [axisIter, stepAxis_fst_of_le (not_lt.mp hgt)]

lemma axisIter_stay (x t : ℚ) (N : ℕ) (h : axisIter x t N = t) :
    ∀ k, N ≤ k → axisIter x t k = t := fun k hk =>
  Nat.le_induction h (fun j _ ih => axisIter_target x t j ih) k hk

lemma axisIter_reaches (x t : ℚ) : ∃ N, ∀ k, N ≤ k → axisIter x t k = t := by
  by_cases hx : x = t
  · exact ⟨0, axisIter_stay x t 0 (by simp [axisIter, hx])⟩
  · have habs : 0 < |x - t| := abs_pos.mpr (sub_ne_zero.mpr hx)
    obtain ⟨n, hn⟩ := exists_pow_lt_of_lt_one
      (show (0 : ℚ) < 1 / 2 / |x - t| by positivity)
      (show (9 / 10 : ℚ) < 1 by norm_num)
    have hsmall : (9 / 10 : ℚ) ^ n * |x - t| ≤ 1 / 2 :=
      le_of_lt ((lt_div_iff₀ habs).mp hn)
    have hstep : axisIter x t (n + 1) = t := by
      rcases axisIter_decay x t n with h | h
      · exact axisIter_target x t n h
      · rw [axisIter]
        exact stepAxis_fst_of_le (by rw [h]; exact hsmall)
    exact ⟨n + 1, axisIter_stay x t (n + 1) hstep⟩

lemma runSteps_eq_map (ts : List ATile) :
    ∀ k, runSteps ts k = ts.map (fun t => tileIter t k) := by
  intro k
  induction k with
  | zero =>
    simp only [runSteps]
    exact (List.map_id'' (fun t => rfl) ts).symm
  | succ k ih =>
    rw [runSteps, ih]
    simp only [stepAll, List.map_map]
    rfl

lemma activeAt_iff (ts : List ATile) (k : ℕ) :
    activeAt ts k = (ts.any fun t => (stepTile (tileIter t k)).2) := by
  rw [activeAt, runSteps_eq_map]
  simp only [stepAll, List.any_map]
  rfl

lemma stepTile_snd_false (t : ATile) :
    (stepTile t).2 = false ↔
      |t.x - t.targetX| ≤ 1 / 2 ∧ |t.y - t.targetY| ≤ 1 / 2 := by
  simp only [stepTile, Bool.or_eq_false_iff]
  rw [stepAxis_snd_false, stepAxis_snd_false]

lemma stepTile_at_of_false (t : ATile) (h : (stepTile t).2 = false) :
    atTarget (stepTile t).1 := by
  obtain ⟨hx, hy⟩ := (stepTile_snd_false t).mp h
  exact ⟨stepAxis_fst_of_le hx, stepAxis_fst_of_le hy⟩

lemma allTiles_eventually_settle (ts : List ATile) :
    ∃ N, ∀ k, N ≤ k → ∀ u ∈ ts, (stepTile (tileIter u k)).2 = false := by
  induction ts with
  | nil => exact ⟨0, by simp⟩
  | cons u us ih =>
    obtain ⟨N2, h2⟩ := ih
    obtain ⟨Nx, hNx⟩ := axisIter_reaches u.x u.targetX
    obtain ⟨Ny, hNy⟩ := axisIter_reaches u.y u.targetY
    refine ⟨max (max Nx Ny) N2, fun k hk v hv => ?_⟩
    rcases List.mem_cons.mp hv with rfl | hv
    · rw [stepTile_snd_false]
      constructor
      · show |(tileIter v k).x - (tileIter v k).targetX| ≤ 1 / 2
        simp only [tileIter]
        rw [hNx k (by omega)]
        simp
      · show |(tileIter v k).y - (tileIter v k).targetY| ≤ 1 / 2
        simp only [tileIter]
        rw [hNy k (by omega)]
        simp
    · exact h2 k (by omega) v hv

/-- C8: each step moves every tile 10% of the remaining distance per
axis, snapping an axis exactly once the remaining distance is at most
the 0.5-pixel threshold; the repeated stepping settles after a bounded
number of steps; at the settling step every tile has exactly reached
its target, at every non-settled step some tile has not, and the
settled state persists (so the settle signal fires exactly once, never
before every tile reaches its target). -/
theorem C8_animation_stepper (ts : List ATile) :
    (∀ x t : ℚ,
      (|x - t| > 1 / 2 → (stepAxis x t).1 = x + (t - x) * (1 / 10)) ∧
      (|x - t| ≤ 1 / 2 → (stepAxis x t).1 = t)) ∧
    (∃ N, activeAt ts N = false) ∧
    (∀ k, activeAt ts k = false → ∀ u ∈ runSteps ts (k + 1), atTarget u) ∧
    (∀ k, activeAt ts k = true → ∃ u ∈ runSteps ts (k + 1), ¬atTarget u) ∧
    (∀ k, activeAt ts k = false → activeAt ts (k + 1) = false) := by
  have hsettled : ∀ k, activeAt ts k = false →
      ∀ u ∈ runSteps ts (k + 1), atTarget u := by
    intro k hk u hu
    rw [runSteps] at hu
    simp only [stepAll, List.mem_map] at hu
    obtain ⟨v, hv, rfl⟩ := hu
    rw [activeAt] at hk
    simp only [stepAll, List.any_eq_false] at hk
    exact stepTile_at_of_false v (Bool.eq_false_iff.mpr (hk v hv))
  refine ⟨?_, ?_, hsettled, ?_, ?_⟩
  · intro x t
    exact ⟨stepAxis_fst_of_gt, stepAxis_fst_of_le⟩
  · obtain ⟨N, hN⟩ := allTiles_eventually_settle ts
    refine ⟨N, ?_⟩
    rw [activeAt_iff]
    simp only [List.any_eq_false]
    exact fun u hu => by rw [hN N le_rfl u hu]; exact Bool.false_ne_true
  · intro k hk
    rw [activeAt] at hk
    simp only [stepAll, List.any_eq_true] at hk
    obtain ⟨v, hv, hflag⟩ := hk
    refine ⟨(stepTile v).1, ?_, ?_⟩
    · rw [runSteps]
      simp only [stepAll]
      exact List.mem_map_of_mem _ hv
    · have hflag2 : (stepAxis v.x v.targetX).2 = true ∨
          (stepAxis v.y v.targetY).2 = true := by
        simpa only [stepTile, Bool.or_eq_true] using hflag
      have htx : (stepTile v).1.targetX = v.targetX := rfl
      have hty : (stepTile v).1.targetY = v.targetY := rfl
      rcases hflag2 with hax | hay
      · have hgt := stepAxis_snd_true.mp hax
        intro hat
        have hx1 : (stepTile v).1.x = v.x + (v.targetX - v.x) * (1 / 10) :=
          stepAxis_fst_of_gt hgt
        have heq := hat.1
        rw [hx1, htx] at heq
        have hvx : v.x = v.targetX := by linarith
        rw [hvx] at hgt
        simp at hgt
        linarith
      · have hgt := stepAxis_snd_true.mp hay
        intro hat
        have hy1 : (stepTile v).1.y = v.y + (v.targetY - v.y) * (1 / 10) :=
          stepAxis_fst_of_gt hgt
        have heq := hat.2
        rw [hy1, hty] at heq
        have hvy : v.y = v.targetY := by linarith
        rw [hvy] at hgt
        simp at hgt
        linarith
  · intro k hk
    have hall := hsettled k hk
    rw [activeAt]
    simp only [stepAll, List.any_eq_false]
    intro u hu
    obtain ⟨hx, hy⟩ := hall u hu
    rw [Bool.not_eq_true, stepTile_snd_false]
    constructor
    · rw [hx]
      simp
    · rw [hy]
      simp

/-- Instantiation of `C8_animation_stepper`: a tile already at its
target is settled after the first step. -/
theorem C8_witness :
    ∀ u ∈ runSteps [ATile.mk 3 4 3 4] 1, atTarget u := by
  apply (C8_animation_stepper [ATile.mk 3 4 3 4]).2.2.1 0
  norm_num [activeAt, runSteps, stepAll, stepTile, stepAxis]

lemma foldBest_min (f : ℕ × ℕ → ℚ) :
    ∀ (l : List (ℕ × ℕ)) (c0 : ℕ × ℕ),
      ∃ c1, l.foldl (gridStep f) (some (c0, f c0)) = some (c1, f c1) ∧
        (c1 = c0 ∨ c1 ∈ l) ∧ f c1 ≤ f c0 ∧ ∀ c ∈ l, f c1 ≤ f c := by
  intro l
  induction l with
  | nil =>
    intro c0
    exact ⟨c0, rfl, Or.inl rfl, le_rfl,
      fun c hc => absurd hc (List.not_mem_nil c)⟩
  | cons c cs ih =>
    intro c0
    rw [List.foldl_cons]
    by_cases hlt : f c < f c0
    · have hstep : gridStep f (some (c0, f c0)) c = some (c, f c) := by
        simp [gridStep, if_pos hlt]
      rw [hstep]
      obtain ⟨c1, h1, h2, h3, h4⟩ := ih c
      refine ⟨c1, h1, Or.inr ?_, le_trans h3 (le_of_lt hlt), ?_⟩
      · rcases h2 with rfl | h2
        · exact List.mem_cons_self _ _
        · exact List.mem_cons_of_mem c h2
      · intro d hd
        rcases List.mem_cons.mp hd with rfl | hd
        · exact h3
        · exact h4 d hd
    · have hstep : gridStep f (some (c0, f c0)) c = some (c0, f c0) := by
        simp [gridStep, if_neg hlt]
      rw [hstep]
      obtain ⟨c1, h1, h2, h3, h4⟩ := ih c0
      refine ⟨c1, h1, ?_, h3, ?_⟩
      · rcases h2 with rfl | h2
        · exact Or.inl rfl
        · exact Or.inr (List.mem_cons_of_mem c h2)
      · intro d hd
        rcases List.mem_cons.mp hd with rfl | hd
        · exact le_trans h3 (not_lt.mp hlt)
        · exact h4 d hd

lemma bestFold_cons (f : ℕ × ℕ → ℚ) (c : ℕ × ℕ) (cs : List (ℕ × ℕ)) :
    (c :: cs).foldl (gridStep f) none = cs.foldl (gridStep f) (some (c, f c)) := by
  rw [List.foldl_cons]
  rfl

lemma bestGrid_min (X U pix : ℚ) :
    ∃ c1, bestGrid X U pix = some (c1, gridErr X U pix c1) ∧
      c1 ∈ gridCandidates ∧
      ∀ c ∈ gridCandidates, gridErr X U pix c1 ≤ gridErr X U pix c := by
  obtain ⟨rest, hrest⟩ : ∃ l, gridCandidates = (1, 0) :: l := ⟨_, rfl⟩
  obtain ⟨c1, h1, h2, h3, h4⟩ := foldBest_min (gridErr X U pix) rest (1, 0)
  refine ⟨c1, ?_, ?_, ?_⟩
  · rw [bestGrid, hrest, bestFold_cons]
    exact h1
  · rw [hrest]
    rcases h2 with rfl | h2
    · exact List.mem_cons_self _ _
    · exact List.mem_cons_of_mem _ h2
  · rw [hrest]
    intro c hc
    rcases List.mem_cons.mp hc with rfl | hc
    · exact h3
    · exact h4 c hc

lemma specBestGrid_min (X U pix : ℚ) :
    ∃ c1, specBestGrid X U pix = some (c1, gridErr X U pix c1) ∧
      c1 ∈ specGridCandidates ∧
      ∀ c ∈ specGridCandidates, gridErr X U pix c1 ≤ gridErr X U pix c := by
  obtain ⟨rest, hrest⟩ : ∃ l, specGridCandidates = (0, 0) :: l := ⟨_, rfl⟩
  obtain ⟨c1, h1, h2, h3, h4⟩ := foldBest_min (gridErr X U pix) rest (0, 0)
  refine ⟨c1, ?_, ?_, ?_⟩
  · rw [specBestGrid, hrest, bestFold_cons]
    exact h1
  · rw [hrest]
    rcases h2 with rfl | h2
    · exact List.mem_cons_self _ _
    · exact List.mem_cons_of_mem _ h2
  · rw [hrest]
    intro c hc
    rcases List.mem_cons.mp hc with rfl | hc
    · exact h3
    · exact h4 c hc

lemma getGridDimensions_of_best {X U pix : ℚ} {c1 : ℕ × ℕ}
    (h : bestGrid X U pix = some (c1, gridErr X U pix c1)) :
    getGridDimensions X U pix =
      if gridErr X U pix c1 < 30 then c1 else (0, 0) := by
  unfold getGridDimensions
  rw [h]

lemma specGetGridDimensions_of_best {X U pix : ℚ} {c1 : ℕ × ℕ}
    (h : specBestGrid X U pix = some (c1, gridErr X U pix c1)) :
    specGetGridDimensions X U pix =
      if gridErr X U pix c1 < 30 then c1 else (0, 0) := by
  unfold specGetGridDimensions
  rw [h]

lemma mem_gridCandidates {c : ℕ × ℕ} :
    c ∈ gridCandidates ↔ 1 ≤ c.1 ∧ c.1 ≤ 5 ∧ c.2 ≤ 10 := by
  obtain ⟨a, b⟩ := c
  simp only [gridCandidates, List.mem_flatMap, List.mem_map, List.mem_range,
    Prod.mk.injEq]
  constructor
  · rintro ⟨a0, ⟨a1, ha1, rfl⟩, b0, hb0, rfl, rfl⟩
    omega
  · rintro ⟨h1, h2, h3⟩
    exact ⟨a, ⟨a - 1, by omega, by omega⟩, b, by omega, rfl, rfl⟩

lemma mem_specGridCandidates {c : ℕ × ℕ} :
    c ∈ specGridCandidates ↔ c.1 ≤ 5 ∧ c.2 ≤ 10 := by
  obtain ⟨a, b⟩ := c
  simp only [specGridCandidates, List.mem_flatMap, List.mem_map,
    List.mem_range, Prod.mk.injEq]
  constructor
  · rintro ⟨a0, ha0, b0, hb0, rfl, rfl⟩
    omega
  · rintro ⟨h1, h2⟩
    exact ⟨a, by omega, b, by omega, rfl, rfl⟩

/-- C6 counterexample: at desktop scale and a measured length of 50
pixels (two units), the inference described by the claim — both counts
ranging over a small range including zero — would return `(0, 2)` with
error 0, but the source's scan starts `countSquare` at 1 and returns
`(0, 0)` because its best error (150) misses the threshold. -/
theorem C6_counterexample :
    getGridDimensions 200 25 50 = (0, 0) ∧
      specGetGridDimensions 200 25 50 = (0, 2) ∧
      gridErr 200 25 50 (0, 2) = 0 ∧ ((0, 2) : ℕ × ℕ) ≠ (0, 0) := by
  have hbig : ∀ c ∈ gridCandidates, ¬gridErr 200 25 50 c < 30 := by
    intro c hc
    obtain ⟨h1, h2, h3⟩ := mem_gridCandidates.mp hc
    have ha : (1 : ℚ) ≤ (c.1 : ℚ) := by exact_mod_cast h1
    have hb : (0 : ℚ) ≤ (c.2 : ℚ) := Nat.cast_nonneg c.2
    have hval : (30 : ℚ) ≤ (c.1 : ℚ) * 200 + (c.2 : ℚ) * 25 - 50 := by
      linarith
    have := le_trans hval (le_abs_self _)
    rw [gridErr]
    linarith
  refine ⟨?_, ?_, ?_, by decide⟩
  · obtain ⟨c1, hb, hmem, _⟩ := bestGrid_min 200 25 50
    rw [getGridDimensions_of_best hb, if_neg (hbig c1 hmem)]
  · obtain ⟨c1, hb, hmem, hmin⟩ := specBestGrid_min 200 25 50
    have h02 : (0, 2) ∈ specGridCandidates := by
      rw [mem_specGridCandidates]
      omega
    have hzero : gridErr 200 25 50 (0, 2) = 0 := by
      rw [gridErr]
      norm_num
    have hle := hmin (0, 2) h02
    rw [hzero] at hle
    have hc1z : gridErr 200 25 50 c1 = 0 :=
      le_antisymm hle (abs_nonneg _)
    have heq : (c1.1 : ℚ) * 200 + (c1.2 : ℚ) * 25 - 50 = 0 := by
      rw [gridErr, abs_eq_zero] at hc1z
      exact hc1z
    have hnat : c1.1 * 200 + c1.2 * 25 = 50 := by
      have : (c1.1 : ℚ) * 200 + (c1.2 : ℚ) * 25 = 50 := by linarith
      exact_mod_cast this
    have hc1 : c1 = (0, 2) := by
      obtain ⟨h1, h2⟩ := mem_specGridCandidates.mp hmem
      have : c1.1 = 0 ∧ c1.2 = 2 := by omega
      exact Prod.ext this.1 this.2
    rw [specGetGridDimensions_of_best hb, hc1, if_pos]
    rw [hzero]
    norm_num
  · rw [gridErr]
    norm_num

/-- C6 (amended): grid-dimension inference scans `countSquare` over
1..5 — zero is excluded, unlike the claim's "range including zero" —
and `countUnit` over 0..10; whenever some candidate's error is below
the 30-pixel threshold it returns a candidate of minimal error, and
when no candidate beats the threshold it returns `(0, 0)`. -/
theorem C6_grid_inference (X U pix : ℚ) :
    ((∃ c ∈ gridCandidates, gridErr X U pix c < 30) →
      getGridDimensions X U pix ∈ gridCandidates ∧
        gridErr X U pix (getGridDimensions X U pix) < 30 ∧
        ∀ c ∈ gridCandidates,
          gridErr X U pix (getGridDimensions X U pix) ≤ gridErr X U pix c) ∧
    ((∀ c ∈ gridCandidates, ¬gridErr X U pix c < 30) →
      getGridDimensions X U pix = (0, 0)) ∧
    (∀ c : ℕ × ℕ, c ∈ gridCandidates ↔ 1 ≤ c.1 ∧ c.1 ≤ 5 ∧ c.2 ≤ 10) := by
  obtain ⟨c1, hb, hmem, hmin⟩ := bestGrid_min X U pix
  refine ⟨?_, ?_, fun c => mem_gridCandidates⟩
  · rintro ⟨c, hcmem, hclt⟩
    have hc1lt : gridErr X U pix c1 < 30 := lt_of_le_of_lt (hmin c hcmem) hclt
    rw [getGridDimensions_of_best hb, if_pos hc1lt]
    exact ⟨hmem, hc1lt, hmin⟩
  · intro hall
    rw [getGridDimensions_of_best hb, if_neg (hall c1 hmem)]

/-- Instantiation of `C6_grid_inference` at desktop scale and 450
pixels (two squares plus two units): the inferred pair has error below
the threshold. -/
theorem C6_witness :
    gridErr 200 25 450 (getGridDimensions 200 25 450) < 30 :=
  (((C6_grid_inference 200 25 450).1)
    ⟨(2, 2), by decide, by rw [gridErr]; norm_num⟩).2.1

/-- C5: the empty arrangement yields the "nothing to check" verdict; a
nonempty arrangement with no negative tile is accepted (as a perfect
rectangle) exactly when the bounding-box area matches the summed tile
area within the fixed 200 tolerance, and otherwise gets the generic
invalid verdict. -/
theorem C5_validator_positive (cfg : Config) (tiles : List Tile)
    (a b c : ℤ) :
    validateVerdict cfg [] a b c = Verdict.nothingToCheck ∧
    (tiles ≠ [] → (∀ t ∈ tiles, t.isNegative = false) →
      (validateVerdict cfg tiles a b c = Verdict.validRect ↔
        |bboxArea tiles - sumArea tiles| < 200) ∧
      (¬|bboxArea tiles - sumArea tiles| < 200 →
        validateVerdict cfg tiles a b c = Verdict.invalid)) := by
  refine ⟨rfl, ?_⟩
  intro hne hall
  obtain ⟨t, ts, rfl⟩ := List.exists_cons_of_ne_nil hne
  have hneg : hasNeg (t :: ts) = false := by
    simp only [hasNeg, List.any_eq_false]
    intro u hu
    simp [hall u hu]
  simp only [bboxArea]
  simp only [validateVerdict, hneg]
  rw [if_pos trivial]
  constructor
  · constructor
    · intro h
      by_contra hc
      rw [if_neg hc] at h
      exact Verdict.noConfusion h
    · intro hc
      rw [if_pos hc]
  · intro hc
    rw [if_neg hc]

/-- Instantiation of `C5_validator_positive`: one positive unit tile
fills its own bounding box exactly. -/
theorem C5_witness :
    validateVerdict desktopConfig
      [mkTile desktopConfig TileType.one 0 0 false] 3 0 0 =
      Verdict.validRect := by
  apply ((C5_validator_positive desktopConfig
    [mkTile desktopConfig TileType.one 0 0 false] 3 0 0).2
    (by simp) (by decide)).1.mpr
  norm_num [bboxArea, bboxWidth, bboxHeight, bboxOf, sumArea, mkTile,
    updateDimensions, desktopConfig]

lemma mem_pqPairs {c : ℕ × ℕ} : c ∈ pqPairs ↔ c.1 ≤ 5 ∧ c.2 ≤ 5 := by
  obtain ⟨p, q⟩ := c
  simp only [pqPairs, List.mem_flatMap, List.mem_map, List.mem_range,
    Prod.mk.injEq]
  constructor
  · rintro ⟨p0, hp0, q0, hq0, rfl, rfl⟩
    omega
  · rintro ⟨h1, h2⟩
    exact ⟨p, by omega, q, by omega, rfl, rfl⟩

lemma validateVerdict_mixed (cfg : Config) (t : Tile) (ts : List Tile)
    (a b c : ℤ) (hn : hasNeg (t :: ts) = true)
    (hpos : 0 < (posTiles (t :: ts)).length) :
    validateVerdict cfg (t :: ts) a b c =
      if |bboxWidth (t :: ts) * bboxHeight (t :: ts) -
          sumArea (posTiles (t :: ts))| < 200 then
        if pqPairs.any
            (overlapOK cfg a b c (bboxWidth (t :: ts)) (bboxHeight (t :: ts))
              (getGridDimensions cfg.x cfg.u (bboxWidth (t :: ts)))
              (getGridDimensions cfg.x cfg.u (bboxHeight (t :: ts)))
              (sumArea (negTiles (t :: ts)))) then
          Verdict.validOverlap
        else Verdict.invalid
      else Verdict.invalid := by
  simp only [validateVerdict, hn]
  rw [if_neg (fun h => Bool.noConfusion h), if_pos hpos]

lemma overlapOK_true {cfg : Config} {a b c : ℤ} {bw bh negArea : ℚ}
    {dimsW dimsH : ℕ × ℕ} {pq : ℕ × ℕ}
    (h : overlapOK cfg a b c bw bh dimsW dimsH negArea pq = true) :
    ¬(pq.1 = 0 ∧ pq.2 = 0) ∧
      (dimsW.1 : ℤ) * (dimsH.1 : ℤ) = a ∧
      (dimsW.1 : ℤ) * ((dimsH.2 : ℤ) - (pq.2 : ℤ)) +
        ((dimsW.2 : ℤ) - (pq.1 : ℤ)) * (dimsH.1 : ℤ) = b ∧
      ((dimsW.2 : ℤ) - (pq.1 : ℤ)) * ((dimsH.2 : ℤ) - (pq.2 : ℤ)) = c ∧
      |(pq.1 : ℚ) * cfg.u * bh + (pq.2 : ℚ) * cfg.u * bw -
          (pq.1 : ℚ) * (pq.2 : ℚ) * cfg.u * cfg.u - negArea| < 200 := by
  by_cases hz : pq.1 = 0 ∧ pq.2 = 0
  · rw [overlapOK, if_pos hz] at h
    exact absurd h Bool.false_ne_true
  · rw [overlapOK, if_neg hz] at h
    simp only [Bool.and_eq_true, decide_eq_true_eq] at h
    exact ⟨hz, h.1.1, h.1.2.1, h.1.2.2, h.2⟩

/-- C2: for a tile set with at least one negative tile, acceptance
requires (when a positive tile exists) that the positive tiles fill the
bounding box within tolerance, that some pair `(p, q)` with
`p, q ≤ 5`, not both zero, makes
`(baseSquareW·x + (baseUnitW − p))·(baseSquareH·x + (baseUnitH − q))`
expand exactly to `(a, b, c)` for the inferred grid dimensions, and that
the measured negative area matches the inclusion–exclusion value within
tolerance; an arrangement of only negative tiles is never accepted. -/
theorem C2_validator_mixed (cfg : Config) (tiles : List Tile) (a b c : ℤ)
    (hne : tiles ≠ []) (hneg : ∃ t ∈ tiles, t.isNegative = true) :
    ((∃ t ∈ tiles, t.isNegative = false) →
      isAccept (validateVerdict cfg tiles a b c) = true →
      |bboxArea tiles - sumArea (posTiles tiles)| < 200 ∧
      ∃ p q : ℕ, p ≤ 5 ∧ q ≤ 5 ∧ ¬(p = 0 ∧ q = 0) ∧
        ((getGridDimensions cfg.x cfg.u (bboxWidth tiles)).1 : ℤ) *
            ((getGridDimensions cfg.x cfg.u (bboxHeight tiles)).1 : ℤ) = a ∧
        ((getGridDimensions cfg.x cfg.u (bboxWidth tiles)).1 : ℤ) *
            (((getGridDimensions cfg.x cfg.u (bboxHeight tiles)).2 : ℤ) -
              (q : ℤ)) +
          (((getGridDimensions cfg.x cfg.u (bboxWidth tiles)).2 : ℤ) -
              (p : ℤ)) *
            ((getGridDimensions cfg.x cfg.u (bboxHeight tiles)).1 : ℤ) = b ∧
        (((getGridDimensions cfg.x cfg.u (bboxWidth tiles)).2 : ℤ) -
            (p : ℤ)) *
          (((getGridDimensions cfg.x cfg.u (bboxHeight tiles)).2 : ℤ) -
            (q : ℤ)) = c ∧
        |(p : ℚ) * cfg.u * bboxHeight tiles +
            (q : ℚ) * cfg.u * bboxWidth tiles -
            (p : ℚ) * (q : ℚ) * cfg.u * cfg.u -
            sumArea (negTiles tiles)| < 200) ∧
    ((∀ t ∈ tiles, t.isNegative = true) →
      isAccept (validateVerdict cfg tiles a b c) = false) := by
  obtain ⟨t, ts, rfl⟩ := List.exists_cons_of_ne_nil hne
  have hn : hasNeg (t :: ts) = true := by
    simp only [hasNeg, List.any_eq_true]
    obtain ⟨u, hu, hu2⟩ := hneg
    exact ⟨u, hu, by simp [hu2]⟩
  constructor
  · rintro ⟨v, hv, hv2⟩ hacc
    have hvpos : v ∈ posTiles (t :: ts) :=
      List.mem_filter.mpr ⟨hv, by simp [hv2]⟩
    have hpos : 0 < (posTiles (t :: ts)).length :=
      List.length_pos.mpr (List.ne_nil_of_mem hvpos)
    rw [validateVerdict_mixed cfg t ts a b c hn hpos] at hacc
    by_cases h1 : |bboxWidth (t :: ts) * bboxHeight (t :: ts) -
        sumArea (posTiles (t :: ts))| < 200
    · rw [if_pos h1] at hacc
      by_cases h2 : pqPairs.any
          (overlapOK cfg a b c (bboxWidth (t :: ts)) (bboxHeight (t :: ts))
            (getGridDimensions cfg.x cfg.u (bboxWidth (t :: ts)))
            (getGridDimensions cfg.x cfg.u (bboxHeight (t :: ts)))
            (sumArea (negTiles (t :: ts)))) = true
      · obtain ⟨pq, hpqmem, hok⟩ := List.any_eq_true.mp h2
        obtain ⟨hpql, hpqr⟩ := mem_pqPairs.mp hpqmem
        obtain ⟨hz, he1, he2, he3, he4⟩ := overlapOK_true hok
        exact ⟨by rw [bboxArea]; exact h1,
          pq.1, pq.2, hpql, hpqr, hz, he1, he2, he3, he4⟩
      · rw [if_neg (by simpa using h2)] at hacc
        exact absurd hacc (by simp [isAccept])
    · rw [if_neg h1] at hacc
      exact absurd hacc (by simp [isAccept])
  · intro hall
    have hpe : posTiles (t :: ts) = [] := by
      simp only [posTiles]
      rw [List.filter_eq_nil_iff]
      intro u hu
      simp [hall u hu]
    simp only [validateVerdict, hn]
    rw [if_neg (fun h => Bool.noConfusion h), if_neg (by rw [hpe]; simp)]
    simp [isAccept]

/-- Instantiation of `C2_validator_mixed`: an arrangement consisting of
a single negative unit tile is rejected. -/
theorem C2_witness :
    isAccept (validateVerdict desktopConfig
      [mkTile desktopConfig TileType.one 0 0 true] 1 2 1) = false :=
  (C2_validator_mixed desktopConfig
      [mkTile desktopConfig TileType.one 0 0 true] 1 2 1 (by simp)
      ⟨mkTile desktopConfig TileType.one 0 0 true, by simp, by decide⟩).2
    (by decide)

lemma snapToNeighbors_cons (tile u : Tile) (us : List Tile) :
    snapToNeighbors tile (u :: us) =
      match applySnapOne tile u with
      | some pos => { tile with x := pos.1, y := pos.2 }
      | none => snapToNeighbors tile us := rfl

lemma snapToNeighbors_none (tile : Tile) :
    ∀ others : List Tile, (∀ o ∈ others, applySnapOne tile o = none) →
      snapToNeighbors tile others = tile := by
  intro others
  induction others with
  | nil => intro _; rfl
  | cons u us ih =>
    intro h
    have hu := h u (List.mem_cons_self _ _)
    rw [snapToNeighbors_cons, hu]
    exact ih fun o ho => h o (List.mem_cons_of_mem u ho)

lemma snapToNeighbors_first (tile : Tile) :
    ∀ (others : List Tile) (o : Tile) (nx ny : ℚ),
      others.find? (fun u => (applySnapOne tile u).isSome) = some o →
      applySnapOne tile o = some (nx, ny) →
      snapToNeighbors tile others = { tile with x := nx, y := ny } := by
  intro others
  induction others with
  | nil => intro o nx ny h; simp at h
  | cons u us ih =>
    intro o nx ny hfind happ
    by_cases hu : (applySnapOne tile u).isSome
    · rw [List.find?_cons_of_pos _ (by simpa using hu)] at hfind
      obtain rfl := Option.some.inj hfind
      rw [snapToNeighbors_cons, happ]
    · have hnone : applySnapOne tile u = none :=
        Option.not_isSome_iff_eq_none.mp hu
      rw [List.find?_cons_of_neg _ (by simpa using hu)] at hfind
      rw [snapToNeighbors_cons, hnone]
      exact ih o nx ny hfind happ

lemma applySnap_flush1 (tile o : Tile) (nx ny : ℚ)
    (h : applySnapOne tile o = some (nx, ny)) (hf : fam1 tile o) :
    nx = o.x + o.w := by
  obtain ⟨hface, hperp⟩ := hf
  simp only [applySnapOne] at h
  rcases hperp with hp | hp
  · rw [if_pos ⟨hface, hp⟩] at h
    simp only [Option.some.injEq, Prod.mk.injEq] at h
    exact h.1.symm
  · by_cases hTT : |tile.y - o.y| < snapDist
    · rw [if_pos ⟨hface, hTT⟩] at h
      simp only [Option.some.injEq, Prod.mk.injEq] at h
      exact h.1.symm
    · rw [if_neg (fun hc => hTT hc.2), if_pos ⟨hface, hp⟩] at h
      simp only [Option.some.injEq, Prod.mk.injEq] at h
      exact h.1.symm

lemma applySnap_flush2 (tile o : Tile) (nx ny : ℚ)
    (h : applySnapOne tile o = some (nx, ny)) (hn1 : ¬fam1 tile o)
    (hf : fam2 tile o) : nx = o.x - tile.w := by
  obtain ⟨hface, hperp⟩ := hf
  simp only [applySnapOne] at h
  rw [if_neg (fun hc => hn1 ⟨hc.1, Or.inl hc.2⟩),
    if_neg (fun hc => hn1 ⟨hc.1, Or.inr hc.2⟩)] at h
  rcases hperp with hp | hp
  · rw [if_pos ⟨hface, hp⟩] at h
    simp only [Option.some.injEq, Prod.mk.injEq] at h
    exact h.1.symm
  · by_cases hTT : |tile.y - o.y| < snapDist
    · rw [if_pos ⟨hface, hTT⟩] at h
      simp only [Option.some.injEq, Prod.mk.injEq] at h
      exact h.1.symm
    · rw [if_neg (fun hc => hTT hc.2), if_pos ⟨hface, hp⟩] at h
      simp only [Option.some.injEq, Prod.mk.injEq] at h
      exact h.1.symm

lemma applySnap_flush3 (tile o : Tile) (nx ny : ℚ)
    (h : applySnapOne tile o = some (nx, ny)) (hn1 : ¬fam1 tile o)
    (hn2 : ¬fam2 tile o) (hf : fam3 tile o) : ny = o.y + o.h := by
  obtain ⟨hface, hperp⟩ := hf
  simp only [applySnapOne] at h
  rw [if_neg (fun hc => hn1 ⟨hc.1, Or.inl hc.2⟩),
    if_neg (fun hc => hn1 ⟨hc.1, Or.inr hc.2⟩),
    if_neg (fun hc => hn2 ⟨hc.1, Or.inl hc.2⟩),
    if_neg (fun hc => hn2 ⟨hc.1, Or.inr hc.2⟩)] at h
  rcases hperp with hp | hp
  · rw [if_pos ⟨hface, hp⟩] at h
    simp only [Option.some.injEq, Prod.mk.injEq] at h
    exact h.2.symm
  · by_cases hLL : |tile.x - o.x| < snapDist
    · rw [if_pos ⟨hface, hLL⟩] at h
      simp only [Option.some.injEq, Prod.mk.injEq] at h
      exact h.2.symm
    · rw [if_neg (fun hc => hLL hc.2), if_pos ⟨hface, hp⟩] at h
      simp only [Option.some.injEq, Prod.mk.injEq] at h
      exact h.2.symm

lemma applySnap_flush4 (tile o : Tile) (nx ny : ℚ)
    (h : applySnapOne tile o = some (nx, ny)) (hn1 : ¬fam1 tile o)
    (hn2 : ¬fam2 tile o) (hn3 : ¬fam3 tile o) (hf : fam4 tile o) :
    ny = o.y - tile.h := by
  obtain ⟨hface, hperp⟩ := hf
  simp only [applySnapOne] at h
  rw [if_neg (fun hc => hn1 ⟨hc.1, Or.inl hc.2⟩),
    if_neg (fun hc => hn1 ⟨hc.1, Or.inr hc.2⟩),
    if_neg (fun hc => hn2 ⟨hc.1, Or.inl hc.2⟩),
    if_neg (fun hc => hn2 ⟨hc.1, Or.inr hc.2⟩),
    if_neg (fun hc => hn3 ⟨hc.1, Or.inl hc.2⟩),
    if_neg (fun hc => hn3 ⟨hc.1, Or.inr hc.2⟩)] at h
  rcases hperp with hp | hp
  · rw [if_pos ⟨hface, hp⟩] at h
    simp only [Option.some.injEq, Prod.mk.injEq] at h
    exact h.2.symm
  · by_cases hLL : |tile.x - o.x| < snapDist
    · rw [if_pos ⟨hface, hLL⟩] at h
      simp only [Option.some.injEq, Prod.mk.injEq] at h
      exact h.2.symm
    · rw [if_neg (fun hc => hLL hc.2), if_pos ⟨hface, hp⟩] at h
      simp only [Option.some.injEq, Prod.mk.injEq] at h
      exact h.2.symm

/-- C7 counterexample: two mobile-scale unit tiles near a corner match
two alignment families at once — the moving tile's bottom edge faces
the other's top edge within tolerance with aligned left edges, yet the
applied snap is the earlier right-of family, leaving that facing pair
with a 20-pixel residual gap instead of flush. -/
theorem C7_counterexample :
    |(mkTile mobileConfig TileType.one 10 92 false).y +
        (mkTile mobileConfig TileType.one 10 92 false).h -
        (mkTile mobileConfig TileType.one 0 100 false).y| < snapDist ∧
    |(mkTile mobileConfig TileType.one 10 92 false).x -
        (mkTile mobileConfig TileType.one 0 100 false).x| < snapDist ∧
    (snapToNeighbors (mkTile mobileConfig TileType.one 10 92 false)
          [mkTile mobileConfig TileType.one 0 100 false]).y +
        (snapToNeighbors (mkTile mobileConfig TileType.one 10 92 false)
          [mkTile mobileConfig TileType.one 0 100 false]).h ≠
      (mkTile mobileConfig TileType.one 0 100 false).y := by
  refine ⟨?_, ?_, ?_⟩
  · norm_num [mkTile, updateDimensions, mobileConfig, snapDist]
  · norm_num [mkTile, updateDimensions, mobileConfig, snapDist]
  · have happ : applySnapOne (mkTile mobileConfig TileType.one 10 92 false)
        (mkTile mobileConfig TileType.one 0 100 false) = some (20, 100) := by
      norm_num [applySnapOne, mkTile, updateDimensions, mobileConfig,
        snapDist]
    rw [snapToNeighbors_cons, happ]
    norm_num [mkTile, updateDimensions, mobileConfig]

/-- C7 (amended): the snap resolver applies at most one adjustment,
taken from the first tile in arrangement order with any matching
alignment branch, and leaves the position unchanged when no tile
matches; when a facing-edge family (facing edge plus a perpendicular
alignment within tolerance) matches and no earlier family in the
resolver's fixed check order also matches for that tile, the applied
snap places that facing pair exactly flush (zero residual gap) — the
"no earlier family" proviso is forced by the counterexample, where two
families match at once and only the first is honoured. -/
theorem C7_snap_resolver (tile : Tile) (others : List Tile) :
    ((∀ o ∈ others, applySnapOne tile o = none) →
      snapToNeighbors tile others = tile) ∧
    (∀ (o : Tile) (nx ny : ℚ),
      others.find? (fun u => (applySnapOne tile u).isSome) = some o →
      applySnapOne tile o = some (nx, ny) →
      snapToNeighbors tile others = { tile with x := nx, y := ny }) ∧
    (∀ (o : Tile) (nx ny : ℚ), applySnapOne tile o = some (nx, ny) →
      (fam1 tile o → nx = o.x + o.w) ∧
      (¬fam1 tile o → fam2 tile o → nx + tile.w = o.x) ∧
      (¬fam1 tile o → ¬fam2 tile o → fam3 tile o → ny = o.y + o.h) ∧
      (¬fam1 tile o → ¬fam2 tile o → ¬fam3 tile o → fam4 tile o →
        ny + tile.h = o.y)) := by
  refine ⟨snapToNeighbors_none tile others,
    fun o nx ny h1 h2 => snapToNeighbors_first tile others o nx ny h1 h2,
    fun o nx ny h => ⟨?_, ?_, ?_, ?_⟩⟩
  · exact applySnap_flush1 tile o nx ny h
  · intro hn1 hf
    have := applySnap_flush2 tile o nx ny h hn1 hf
    linarith
  · exact applySnap_flush3 tile o nx ny h
  · intro hn1 hn2 hn3 hf
    have := applySnap_flush4 tile o nx ny h hn1 hn2 hn3 hf
    linarith

/-- Instantiation of `C7_snap_resolver`: a tile far from the only other
tile keeps its free-form position. -/
theorem C7_witness :
    snapToNeighbors (mkTile desktopConfig TileType.one 0 0 false)
      [mkTile desktopConfig TileType.one 500 500 false] =
      mkTile desktopConfig TileType.one 0 0 false := by
  apply (C7_snap_resolver (mkTile desktopConfig TileType.one 0 0 false)
    [mkTile desktopConfig TileType.one 500 500 false]).1
  intro o ho
  rw [List.mem_singleton] at ho
  subst ho
  norm_num [applySnapOne, mkTile, updateDimensions, desktopConfig, snapDist]
